import Mathlib

set_option maxHeartbeats 1000000
set_option maxRecDepth 8000

/-!
Verification of the Clash rule parser (`clashruleprovider/clash_rule_parser.py`).
Python strings are modelled as lists of characters (`Str`); the string
operations used by the source (`strip`, `upper`, `split`, `startswith`, the
logic-rule regular expression) are embedded as executable Lean functions, and
the parser entry points return `Option`/`Except` values mirroring the source's
`None` results and caught `ValueError` exceptions.
-/

namespace ClashSpec

/-- Python strings, modelled as lists of characters. -/
abbrev Str := List Char

/-- ASCII whitespace as recognised by Python `str.strip` and the regex class. -/
def isSpc (c : Char) : Bool :=
  c == ' ' || c == '\t' || c == '\n' || c == '\r' || c == '\x0b' || c == '\x0c'

/-- Python `str.strip`: remove leading and trailing whitespace. -/
def trim (s : Str) : Str :=
  ((s.dropWhile isSpc).reverse.dropWhile isSpc).reverse

/-- Python `str.upper` (ASCII relevant range). -/
def toUpperS (s : Str) : Str := s.map Char.toUpper

/-- Python `str.startswith`. -/
def startsWith (s pre : Str) : Bool := pre.isPrefixOf s

/-- Python `line.split(',')`. -/
def splitOnComma : Str → List Str
  | [] => [[]]
  | c :: rest =>
    if c = ',' then [] :: splitOnComma rest
    else
      match splitOnComma rest with
      | [] => [[c]]
      | h :: t => (c :: h) :: t

/-- Python `line.split(',', 1)`: split at the first comma only. -/
def splitOnCommaOnce : Str → List Str
  | [] => [[]]
  | c :: rest =>
    if c = ',' then [[], rest]
    else
      match splitOnCommaOnce rest with
      | [] => [[c]]
      | h :: t => (c :: h) :: t

/-- Join strings with a comma separator (left inverse of `splitOnComma`). -/
def intercalateComma : List Str → Str
  | [] => []
  | [s] => s
  | s :: s2 :: rest => s ++ ',' :: intercalateComma (s2 :: rest)

/-- `RuleType`: enumeration of all supported Clash rule types (source lines 7-49). -/
inductive RuleType where
  | DOMAIN | DOMAIN_SUFFIX | DOMAIN_KEYWORD | DOMAIN_REGEX | GEOSITE
  | IP_CIDR | IP_CIDR6 | IP_SUFFIX | IP_ASN | GEOIP
  | SRC_GEOIP | SRC_IP_ASN | SRC_IP_CIDR | SRC_IP_SUFFIX
  | DST_PORT | SRC_PORT
  | IN_PORT | IN_TYPE | IN_USER | IN_NAME
  | PROCESS_PATH | PROCESS_PATH_REGEX | PROCESS_NAME | PROCESS_NAME_REGEX
  | UID | NETWORK | DSCP
  | RULE_SET | AND | OR | NOT | SUB_RULE
  | MATCH
deriving DecidableEq

/-- The textual value of each `RuleType` member (source lines 9-49). -/
def RuleType.value : RuleType → Str
  | .DOMAIN => "DOMAIN".data
  | .DOMAIN_SUFFIX => "DOMAIN-SUFFIX".data
  | .DOMAIN_KEYWORD => "DOMAIN-KEYWORD".data
  | .DOMAIN_REGEX => "DOMAIN-REGEX".data
  | .GEOSITE => "GEOSITE".data
  | .IP_CIDR => "IP-CIDR".data
  | .IP_CIDR6 => "IP-CIDR6".data
  | .IP_SUFFIX => "IP-SUFFIX".data
  | .IP_ASN => "IP-ASN".data
  | .GEOIP => "GEOIP".data
  | .SRC_GEOIP => "SRC-GEOIP".data
  | .SRC_IP_ASN => "SRC-IP-ASN".data
  | .SRC_IP_CIDR => "SRC-IP-CIDR".data
  | .SRC_IP_SUFFIX => "SRC-IP-SUFFIX".data
  | .DST_PORT => "DST-PORT".data
  | .SRC_PORT => "SRC-PORT".data
  | .IN_PORT => "IN-PORT".data
  | .IN_TYPE => "IN-TYPE".data
  | .IN_USER => "IN-USER".data
  | .IN_NAME => "IN-NAME".data
  | .PROCESS_PATH => "PROCESS-PATH".data
  | .PROCESS_PATH_REGEX => "PROCESS-PATH-REGEX".data
  | .PROCESS_NAME => "PROCESS-NAME".data
  | .PROCESS_NAME_REGEX => "PROCESS-NAME-REGEX".data
  | .UID => "UID".data
  | .NETWORK => "NETWORK".data
  | .DSCP => "DSCP".data
  | .RULE_SET => "RULE-SET".data
  | .AND => "AND".data
  | .OR => "OR".data
  | .NOT => "NOT".data
  | .SUB_RULE => "SUB-RULE".data
  | .MATCH => "MATCH".data

/-- All `RuleType` members, in declaration order. -/
def ruleTypeList : List RuleType :=
  [.DOMAIN, .DOMAIN_SUFFIX, .DOMAIN_KEYWORD, .DOMAIN_REGEX, .GEOSITE,
   .IP_CIDR, .IP_CIDR6, .IP_SUFFIX, .IP_ASN, .GEOIP,
   .SRC_GEOIP, .SRC_IP_ASN, .SRC_IP_CIDR, .SRC_IP_SUFFIX,
   .DST_PORT, .SRC_PORT,
   .IN_PORT, .IN_TYPE, .IN_USER, .IN_NAME,
   .PROCESS_PATH, .PROCESS_PATH_REGEX, .PROCESS_NAME, .PROCESS_NAME_REGEX,
   .UID, .NETWORK, .DSCP,
   .RULE_SET, .AND, .OR, .NOT, .SUB_RULE,
   .MATCH]

/-- Python `RuleType(s)`: enum lookup by value; `None` models a raised `ValueError`. -/
def RuleType.ofString (s : Str) : Option RuleType :=
  ruleTypeList.find? (fun rt => rt.value == s)

/-- `Action`: enumeration of built-in rule actions (source lines 52-58). -/
inductive Action where
  | DIRECT | REJECT | REJECT_DROP | PASS | COMPATIBLE
deriving DecidableEq

/-- The textual value of each `Action` member. -/
def Action.value : Action → Str
  | .DIRECT => "DIRECT".data
  | .REJECT => "REJECT".data
  | .REJECT_DROP => "REJECT-DROP".data
  | .PASS => "PASS".data
  | .COMPATIBLE => "COMPATIBLE".data

/-- All `Action` members. -/
def actionList : List Action := [.DIRECT, .REJECT, .REJECT_DROP, .PASS, .COMPATIBLE]

/-- Python `Action(s)`: enum lookup by value; `None` models a raised `ValueError`. -/
def Action.ofString (s : Str) : Option Action :=
  actionList.find? (fun a => a.value == s)

/-- The `action` field of a rule: `Union[Action, str]` in the source. -/
inductive ActionVal where
  | builtin (a : Action)
  | named (s : Str)
deriving DecidableEq

/-- The repeated `try: Action(action.upper()) except ValueError: action` idiom
(source lines 212-216, 235-239, 265-269). -/
def resolveAction (s : Str) : ActionVal :=
  match Action.ofString (toUpperS s) with
  | some a => .builtin a
  | none => .named s

/-- `ClashRule`: a parsed regular Clash rule (source lines 61-76). -/
structure ClashRule where
  rule_type : RuleType
  payload : Str
  action : ActionVal
  additional_params : List Str
  raw_rule : Str
  priority : Int
deriving DecidableEq

/-- One entry of `LogicRule.conditions`: `Union[ClashRule, 'LogicRule']` in the
source, so the type permits nesting even though the parser only builds the
`simple` form. A `nested` entry carries the fields of an embedded `LogicRule`. -/
inductive LogicCond where
  | simple (rule : ClashRule)
  | nested (logic_type : RuleType) (conditions : List LogicCond) (action : ActionVal)
      (raw_rule : Str) (priority : Int)

/-- `LogicRule`: a parsed AND/OR/NOT rule (source lines 79-90). -/
structure LogicRule where
  logic_type : RuleType
  conditions : List LogicCond
  action : ActionVal
  raw_rule : Str
  priority : Int

/-- `MatchRule`: a parsed MATCH rule (source lines 93-103). -/
structure MatchRule where
  action : ActionVal
  raw_rule : Str
  priority : Int
  rule_type : RuleType

/-- The union `Union[ClashRule, LogicRule, MatchRule]` returned by the parser. -/
inductive Rule where
  | simple (c : ClashRule)
  | logic (l : LogicRule)
  | matchR (m : MatchRule)

/-- The `ValueError`s raised by the private parsing helpers, as structured
error values (spec names: InvalidMatchFormat, UnknownRuleKind,
InvalidLogicFormat; `invalidRuleFormat` is the "needs at least 3 parts" error,
`invalidLogicRule` the re-raised "Invalid logic rule" error). -/
inductive ParseError where
  | invalidMatchFormat (line : Str)
  | invalidRuleFormat (line : Str)
  | unknownRuleType (token : Str) (line : Str)
  | invalidLogicFormat (line : Str)
  | invalidLogicRule (line : Str)
deriving DecidableEq

/-- `ClashRule.condition_string` (source lines 75-76). -/
def ClashRule.condition_string (c : ClashRule) : Str :=
  c.rule_type.value ++ ',' :: c.payload

mutual

/-- `condition_string()` dispatched on a condition entry (the source calls the
method of whichever dataclass the entry is). -/
def LogicCond.condition_string : LogicCond → Str
  | .simple c => c.condition_string
  | .nested lt conds _ _ _ =>
      lt.value ++ ',' :: '(' :: condListStrings conds ++ [')']

/-- The comma-joined `"(...)"`-wrapped condition strings (source line 89). -/
def condListStrings : List LogicCond → Str
  | [] => []
  | [c] => '(' :: c.condition_string ++ [')']
  | c :: c2 :: rest =>
      ('(' :: c.condition_string ++ [')']) ++ ',' :: condListStrings (c2 :: rest)

end

/-- `LogicRule.condition_string` (source lines 88-90). -/
def LogicRule.condition_string (l : LogicRule) : Str :=
  l.logic_type.value ++ ',' :: '(' :: condListStrings l.conditions ++ [')']

/-- `MatchRule.condition_string` (source lines 101-103). -/
def MatchRule.condition_string (_ : MatchRule) : Str := "MATCH".data

/-- The list comprehension `[p.strip() for p in line.split(',') if p.strip()]`
(source lines 207 and 221). -/
def partsOf (line : Str) : List Str :=
  ((splitOnComma line).map trim).filter (fun t => !t.isEmpty)

/-- `ClashRuleParser._parse_match_rule` (source lines 204-216). -/
def parseMatchRule (line : Str) : Except ParseError MatchRule :=
  match partsOf line with
  | [_, action] => .ok ⟨resolveAction action, line, 0, RuleType.MATCH⟩
  | _ => .error (.invalidMatchFormat line)

/-- `ClashRuleParser._parse_regular_rule` (source lines 218-247). -/
def parseRegularRule (line : Str) : Except ParseError ClashRule :=
  match partsOf line with
  | rt :: payload :: action :: rest =>
    match RuleType.ofString (toUpperS rt) with
    | none => .error (.unknownRuleType (toUpperS rt) line)
    | some rule_type => .ok ⟨rule_type, payload, resolveAction action, rest, line, 0⟩
  | _ => .error (.invalidRuleFormat line)

/-- `ClashRuleParser._parse_single_condition` (source lines 313-332). -/
def parseSingleCondition (condition_str : Str) : Option ClashRule :=
  match ((splitOnCommaOnce condition_str).map trim).filter (fun t => !t.isEmpty) with
  | [rt, payload] =>
    match RuleType.ofString (toUpperS rt) with
    | some rule_type => some ⟨rule_type, payload, .named [], [], condition_str, 0⟩
    | none => none
  | _ => none

/-- The character scan of `ClashRuleParser._parse_logic_conditions` (source
lines 280-311). The Python `stack` is a list holding only `'('`, so it is
modelled by its depth. -/
def decomposeLoop : Str → Nat → Str → List ClashRule → List ClashRule
  | [], _, _, conditions => conditions
  | c :: rest, depth, current, conditions =>
    if c = '(' then
      decomposeLoop rest (depth + 1) (if 0 < depth then current ++ [c] else current) conditions
    else if c = ')' then
      if 0 < depth then
        if depth = 1 then
          decomposeLoop rest 0 [] (conditions ++ (parseSingleCondition current).toList)
        else
          decomposeLoop rest (depth - 1) (current ++ [c]) conditions
      else
        decomposeLoop rest depth current conditions
    else
      decomposeLoop rest depth (if 0 < depth then current ++ [c] else current) conditions

/-- `ClashRuleParser._parse_logic_conditions` (source lines 280-311). -/
def parseLogicConditions (conditions_str : Str) : List ClashRule :=
  decomposeLoop conditions_str 0 [] []

/-- The keyword alternative of the regex `^(AND|OR|NOT),` tried in order. -/
def keywordOf (t : Str) : Option Str :=
  if startsWith t "AND,".data then some "AND".data
  else if startsWith t "OR,".data then some "OR".data
  else if startsWith t "NOT,".data then some "NOT".data
  else none

/-- Split a string at its last comma, returning the parts before and after it. -/
def splitAtLastComma (r : Str) : Option (Str × Str) :=
  let arev := r.reverse.takeWhile (fun c => !(c == ','))
  if arev.length = r.length then none
  else some (r.take (r.length - arev.length - 1), arev.reverse)

/-- `re.match(r'^(AND|OR|NOT),\s*\((.+)\)\s*,\s*([^,]+)$', t)` (source line 253),
returning the three captured groups. The match is deterministic: the pattern's
comma is necessarily the last comma of `t` (group 3 admits no comma and runs to
the end), the `)` is the last one followed only by whitespace before that comma,
and `.` does not match a newline. Group 3 is returned as the whole segment
after the last comma; its caller only uses `trim` of it, which agrees with the
trimmed regex capture. -/
def logicRegexMatch (t : Str) : Option (Str × Str × Str) :=
  match keywordOf t with
  | none => none
  | some kw =>
    match (t.drop (kw.length + 1)).dropWhile isSpc with
    | '(' :: r =>
      match splitAtLastComma r with
      | none => none
      | some (pre, a) =>
        if a = [] then none
        else
          match pre.reverse.dropWhile isSpc with
          | ')' :: brev =>
            let b := brev.reverse
            if b = [] then none
            else if b.contains '\n' then none
            else some (kw, b, a)
          | _ => none
    | _ => none

/-- `ClashRuleParser._parse_logic_rule` (source lines 249-278). The `RuleType`
lookup on the captured keyword cannot fail, but the source still guards it and
re-raises as "Invalid logic rule"; the guard is kept. -/
def parseLogicRule (line : Str) : Except ParseError LogicRule :=
  match logicRegexMatch (trim line) with
  | none => .error (.invalidLogicFormat line)
  | some (kw, body, act) =>
    match RuleType.ofString (toUpperS kw) with
    | none => .error (.invalidLogicRule line)
    | some logic_type =>
      .ok ⟨logic_type, (parseLogicConditions (trim body)).map .simple,
           resolveAction (trim act), line, 0⟩

/-- The argument of `parse_rule_line`: a Python value that is either a string
or not a string at all. -/
inductive LineInput where
  | str (s : Str)
  | nonString

/-- Turn a caught exception into the `None` result of the enclosing handler. -/
def exceptToOption : Except ParseError Rule → Option Rule
  | .ok r => some r
  | .error _ => none

/-- The dispatch inside the `try` of `parse_rule_line` (source lines 123-128),
applied to the already stripped, non-empty line. -/
def parseRuleLineCore (t : Str) : Except ParseError Rule :=
  if startsWith t "AND,".data || startsWith t "OR,".data || startsWith t "NOT,".data then
    (parseLogicRule t).map Rule.logic
  else if startsWith (toUpperS t) "MATCH,".data then
    (parseMatchRule t).map Rule.matchR
  else
    (parseRegularRule t).map Rule.simple

/-- `ClashRuleParser.parse_rule_line` (source lines 112-131): non-strings and
blank lines give `None`; every exception from the dispatch is caught and gives
`None`. -/
def parseRuleLine : LineInput → Option Rule
  | .nonString => none
  | .str line =>
    if trim line = [] then none
    else exceptToOption (parseRuleLineCore (trim line))

/-- One entry of the `conditions` list of a rule dict: a nested dict (with its
`type`/`payload` values, absent keys giving `""`), a string, or anything else
(silently skipped by the source). -/
inductive CondEntry where
  | cdict (type : Str) (payload : Str)
  | cstr (s : Str)
  | cother

/-- A structured rule dict. Absent keys are modelled by their `.get` defaults:
empty strings and empty lists. -/
structure RuleDict where
  type : Str
  action : Str
  payload : Str
  conditions : List CondEntry
  additional_params : List Str

/-- The argument of `parse_rule_dict`: a string, a dict, or anything else. -/
inductive DictInput where
  | str (s : Str)
  | dict (d : RuleDict)
  | other

/-- The contribution of one conditions entry to `conditions_str`
(source lines 159-166). -/
def condPiece : CondEntry → Str
  | .cdict t p => if t ≠ [] ∧ p ≠ [] then '(' :: (t ++ ',' :: p ++ [')']) else []
  | .cstr s => s
  | .cother => []

/-- The canonical line `f"{rule_type},{payload},{action}"` plus joined
additional params built for a regular rule dict (source lines 194-196);
`rule_type` is the uppercased `type` value. -/
def dictRegularRaw (d : RuleDict) : Str :=
  toUpperS d.type ++ ',' :: d.payload ++ ',' :: d.action ++
    (if d.additional_params = [] then [] else ',' :: intercalateComma d.additional_params)

/-- The `conditions_str` accumulated by the loop of source lines 158-166. -/
def dictConditionsStr (d : RuleDict) : Str :=
  d.conditions.foldl (fun acc c => acc ++ condPiece c) []

/-- The canonical line `f"{rule_type},({conditions_str}),{action}"` built for a
logic rule dict (source line 172); `rule_type` is the uppercased `type` value. -/
def dictLogicRaw (d : RuleDict) : Str :=
  toUpperS d.type ++ ',' :: '(' :: (dictConditionsStr d ++ ')' :: ',' :: d.action)

/-- `ClashRuleParser.parse_rule_dict` (source lines 133-202); `rule_type` is
the uppercased `type` value. -/
def parseRuleDict : DictInput → Option Rule
  | .str s => parseRuleLine (.str s)
  | .other => none
  | .dict d =>
    if toUpperS d.type = [] then none
    else if toUpperS d.type = "AND".data ∨ toUpperS d.type = "OR".data ∨
        toUpperS d.type = "NOT".data then
      if dictConditionsStr d = [] then none
      else
        exceptToOption ((parseLogicRule (dictLogicRaw d)).map Rule.logic)
    else if toUpperS d.type = "MATCH".data then
      if d.action = [] then none
      else exceptToOption ((parseMatchRule ("MATCH,".data ++ d.action)).map Rule.matchR)
    else
      if d.payload = [] then none
      else exceptToOption ((parseRegularRule (dictRegularRaw d)).map Rule.simple)

/-- Rendering an action back to text: a built-in action prints its enum value,
a named proxy group prints verbatim. -/
def renderActionVal : ActionVal → Str
  | .builtin a => a.value
  | .named s => s

/-- Modelled from the spec: the Serializer of section 4.5, whose full-line
rendering (the inverse of the line parser's dispatch) is not part of the
sources under `src/`; it wraps the `condition_string` methods and appends the
rendered action (and, for simple rules, the additional params). -/
def render : Rule → Str
  | .simple c =>
      intercalateComma (c.rule_type.value :: c.payload ::
        renderActionVal c.action :: c.additional_params)
  | .logic l => l.condition_string ++ ',' :: renderActionVal l.action
  | .matchR m => "MATCH,".data ++ renderActionVal m.action

/-- Modelled from the spec: `canonical_form` of the round-trip law in section 8
"normalizes only whitespace" - each comma-separated segment is stripped and
the segments are re-joined. -/
def canonicalForm (line : Str) : Str :=
  intercalateComma ((splitOnComma line).map trim)

/-- A plain token of the section 6 grammar: non-empty, and free of commas,
parentheses and whitespace (Boolean form). -/
def tokOkB (t : Str) : Bool :=
  !t.isEmpty && t.all (fun c => !(c == ',') && !(c == '(') && !(c == ')') && !isSpc c)

/-- A plain token of the section 6 grammar (propositional form). -/
def tokOk (t : Str) : Prop := tokOkB t = true

instance tokOkDec (t : Str) : Decidable (tokOk t) :=
  inferInstanceAs (Decidable (tokOkB t = true))

/-- All rule-kind tokens of the authoritative table. -/
def allKindTokens : List Str := ruleTypeList.map RuleType.value

/-- The three logic keywords. -/
def logicKindTokens : List Str := ["AND".data, "OR".data, "NOT".data]

/-- The kind tokens usable in the simple-rule production of the section 6
grammar: every table token except the logic and match kinds. -/
def simpleKindTokens : List Str :=
  allKindTokens.filter (fun t =>
    !(t == "AND".data || t == "OR".data || t == "NOT".data || t == "MATCH".data))

/-- The text of a simple rule line of the section 6 grammar. -/
def simpleLine (k p a : Str) (qs : List Str) : Str :=
  intercalateComma (k :: p :: a :: qs)

/-- The text of a match rule line of the section 6 grammar. -/
def matchLine (a : Str) : Str := "MATCH,".data ++ a

/-- One parenthesized condition `"(" kind "," payload ")"`. -/
def wrapCond (cp : Str × Str) : Str := '(' :: (cp.1 ++ ',' :: (cp.2 ++ [')']))

/-- The text of a logic rule line of the section 6 grammar (conditions joined
by commas, as in the spec's own examples). -/
def logicLine (k : Str) (conds : List (Str × Str)) (a : Str) : Str :=
  k ++ ',' :: '(' :: intercalateComma (conds.map wrapCond) ++ ')' :: ',' :: a

/-- Modelled from the spec: the well-formed rule lines of the section 6
grammar. -/
inductive WellFormed : Str → Prop
  | simple (k p a : Str) (qs : List Str) :
      k ∈ simpleKindTokens → tokOk p → tokOk a → (∀ q ∈ qs, tokOk q) →
      WellFormed (simpleLine k p a qs)
  | matchR (a : Str) : tokOk a → WellFormed (matchLine a)
  | logic (k : Str) (conds : List (Str × Str)) (a : Str) :
      k ∈ logicKindTokens → conds ≠ [] →
      (∀ cp ∈ conds, cp.1 ∈ allKindTokens ∧ tokOk cp.2) → tokOk a →
      WellFormed (logicLine k conds a)

/-- The well-formed lines of the section 6 grammar whose action token is
preserved by action resolution (built-in actions written in their canonical
uppercase form; named groups are always preserved). -/
inductive WellFormedCanonical : Str → Prop
  | simple (k p a : Str) (qs : List Str) :
      k ∈ simpleKindTokens → tokOk p → tokOk a → (∀ q ∈ qs, tokOk q) →
      renderActionVal (resolveAction a) = a →
      WellFormedCanonical (simpleLine k p a qs)
  | matchR (a : Str) : tokOk a → renderActionVal (resolveAction a) = a →
      WellFormedCanonical (matchLine a)
  | logic (k : Str) (conds : List (Str × Str)) (a : Str) :
      k ∈ logicKindTokens → conds ≠ [] →
      (∀ cp ∈ conds, cp.1 ∈ allKindTokens ∧ tokOk cp.2) → tokOk a →
      renderActionVal (resolveAction a) = a →
      WellFormedCanonical (logicLine k conds a)

/-- No character of `s` is whitespace. -/
def noWs (s : Str) : Prop := ∀ c ∈ s, isSpc c = false

instance noWsDec (s : Str) : Decidable (noWs s) :=
  inferInstanceAs (Decidable (∀ c ∈ s, isSpc c = false))

/-- The unparenthesized text of one condition pair. -/
def pairStr (cp : Str × Str) : Str := cp.1 ++ ',' :: cp.2

/-- Wrap a condition group in parentheses. -/
def wrapParen (g : Str) : Str := '(' :: (g ++ [')'])

/-- The `ClashRule` produced for a table-token condition pair (helper used to
describe the image of `parseSingleCondition` on well-formed groups). -/
def condRuleOf (cp : Str × Str) : ClashRule :=
  ⟨(RuleType.ofString cp.1).getD RuleType.DOMAIN, cp.2, .named [], [], pairStr cp, 0⟩

/-! ### Helper lemmas about the string operations -/

lemma splitOnComma_ne_nil (s : Str) : splitOnComma s ≠ [] := by
  cases s with
  | nil => simp [splitOnComma]
  | cons c rest =>
    by_cases h : c = ','
    · simp [splitOnComma, h]
    · simp only [splitOnComma, if_neg h]
      cases splitOnComma rest <;> simp

lemma splitOnComma_append_comma (x rest : Str) (hx : ',' ∉ x) :
    splitOnComma (x ++ ',' :: rest) = x :: splitOnComma rest := by
  induction x with
  | nil => simp [splitOnComma]
  | cons c x ih =>
    have hc : ¬(c = ',') := fun h => hx (h ▸ List.mem_cons_self c x)
    have hx' : ',' ∉ x := fun h => hx (List.mem_cons_of_mem _ h)
    simp only [List.cons_append, splitOnComma, if_neg hc, List.append_eq, ih hx']

lemma splitOnComma_commafree (x : Str) (hx : ',' ∉ x) : splitOnComma x = [x] := by
  induction x with
  | nil => simp [splitOnComma]
  | cons c x ih =>
    have hc : ¬(c = ',') := fun h => hx (h ▸ List.mem_cons_self c x)
    have hx' : ',' ∉ x := fun h => hx (List.mem_cons_of_mem _ h)
    simp only [splitOnComma, if_neg hc, ih hx']

lemma intercalateComma_cons (x : Str) (t2 : Str) (ts : List Str) :
    intercalateComma (x :: t2 :: ts) = x ++ ',' :: intercalateComma (t2 :: ts) := rfl

lemma splitOnComma_intercalate (toks : List Str) (h : ∀ t ∈ toks, ',' ∉ t) :
    toks ≠ [] → splitOnComma (intercalateComma toks) = toks := by
  induction toks with
  | nil => intro hne; exact absurd rfl hne
  | cons x ts ih =>
    intro _
    cases ts with
    | nil => exact splitOnComma_commafree x (h x (List.mem_cons_self x []))
    | cons t2 ts' =>
      rw [intercalateComma_cons,
        splitOnComma_append_comma x _ (h x (List.mem_cons_self _ _)),
        ih (fun t ht => h t (List.mem_cons_of_mem _ ht)) (by simp)]

lemma intercalateComma_splitOnComma (s : Str) : intercalateComma (splitOnComma s) = s := by
  induction s with
  | nil => simp [splitOnComma, intercalateComma]
  | cons c rest ih =>
    obtain ⟨h0, t0, he⟩ : ∃ h0 t0, splitOnComma rest = h0 :: t0 := by
      cases hsp : splitOnComma rest with
      | nil => exact absurd hsp (splitOnComma_ne_nil rest)
      | cons h0 t0 => exact ⟨h0, t0, rfl⟩
    rw [he] at ih
    by_cases h : c = ','
    · subst h
      have hs : splitOnComma (',' :: rest) = [] :: h0 :: t0 := by
        simp [splitOnComma, he]
      rw [hs, intercalateComma_cons, List.nil_append, ih]
    · have hs : splitOnComma (c :: rest) = (c :: h0) :: t0 := by
        simp [splitOnComma, if_neg h, he]
      rw [hs]
      cases t0 with
      | nil =>
        have : intercalateComma [h0] = h0 := rfl
        rw [this] at ih
        simpa [intercalateComma] using congrArg (c :: ·) ih
      | cons u us =>
        rw [intercalateComma_cons] at ih ⊢
        simpa using congrArg (c :: ·) ih

lemma mem_of_mem_splitOnComma (s : Str) :
    ∀ part ∈ splitOnComma s, ∀ c ∈ part, c ∈ s := by
  induction s with
  | nil => intro part hp c hc; simp [splitOnComma] at hp; simp [hp] at hc
  | cons d rest ih =>
    intro part hp c hc
    obtain ⟨h0, t0, he⟩ : ∃ h0 t0, splitOnComma rest = h0 :: t0 := by
      cases hsp : splitOnComma rest with
      | nil => exact absurd hsp (splitOnComma_ne_nil rest)
      | cons h0 t0 => exact ⟨h0, t0, rfl⟩
    by_cases h : d = ','
    · subst h
      have hs : splitOnComma (',' :: rest) = [] :: splitOnComma rest := by
        simp [splitOnComma]
      rw [hs] at hp
      rcases List.mem_cons.mp hp with h1 | h1
      · rw [h1] at hc; simp at hc
      · exact List.mem_cons_of_mem _ (ih part h1 c hc)
    · have hs : splitOnComma (d :: rest) = (d :: h0) :: t0 := by
        simp [splitOnComma, if_neg h, he]
      rw [hs] at hp
      rcases List.mem_cons.mp hp with h1 | h1
      · subst h1
        rcases List.mem_cons.mp hc with h2 | h2
        · exact h2 ▸ List.mem_cons_self d rest
        · exact List.mem_cons_of_mem _ (ih h0 (he ▸ List.mem_cons_self h0 t0) c h2)
      · exact List.mem_cons_of_mem _ (ih part (he ▸ List.mem_cons_of_mem _ h1) c hc)

lemma dropWhile_isSpc_of_noWs (s : Str) (h : noWs s) : s.dropWhile isSpc = s := by
  cases s with
  | nil => rfl
  | cons c rest => simp [List.dropWhile_cons, h c (List.mem_cons_self c rest)]

lemma noWs_reverse (s : Str) (h : noWs s) : noWs s.reverse := by
  intro c hc; exact h c (List.mem_reverse.mp hc)

lemma trim_of_noWs (s : Str) (h : noWs s) : trim s = s := by
  unfold trim
  rw [dropWhile_isSpc_of_noWs s h, dropWhile_isSpc_of_noWs _ (noWs_reverse s h),
    List.reverse_reverse]

lemma noWs_append (x y : Str) (hx : noWs x) (hy : noWs y) : noWs (x ++ y) := by
  intro c hc
  rcases List.mem_append.mp hc with h | h
  · exact hx c h
  · exact hy c h

lemma noWs_cons (c : Char) (s : Str) (hc : isSpc c = false) (hs : noWs s) :
    noWs (c :: s) := by
  intro d hd
  rcases List.mem_cons.mp hd with h | h
  · exact h ▸ hc
  · exact hs d h

lemma isPrefixOf_keyword (key k rest : Str) (hkey : ',' ∉ key) (hk : ',' ∉ k) :
    ((key ++ [',']).isPrefixOf (k ++ ',' :: rest) = true) ↔ k = key := by
  induction key generalizing k with
  | nil =>
    cases k with
    | nil => simp [List.isPrefixOf]
    | cons c k2 =>
      have hc : ¬(',' = c) := fun h => hk (h ▸ List.mem_cons_self c k2)
      simp [List.isPrefixOf, hc]
  | cons b key2 ih =>
    have hb : ¬(b = ',') := fun h => hkey (h ▸ List.mem_cons_self b key2)
    have hkey2 : ',' ∉ key2 := fun h => hkey (List.mem_cons_of_mem _ h)
    cases k with
    | nil =>
      simp only [List.cons_append, List.nil_append, List.isPrefixOf, Bool.and_eq_true,
        beq_iff_eq]
      constructor
      · rintro ⟨h1, _⟩; exact absurd h1 hb
      · intro h; exact absurd h.symm (by simp)
    | cons c k2 =>
      have hk2 : ',' ∉ k2 := fun h => hk (List.mem_cons_of_mem _ h)
      simp only [List.cons_append, List.isPrefixOf, Bool.and_eq_true, beq_iff_eq,
        List.append_eq, ih k2 hkey2 hk2, List.cons.injEq]
      constructor
      · rintro ⟨h1, h2⟩; exact ⟨h1.symm, h2⟩
      · rintro ⟨h1, h2⟩; exact ⟨h1.symm, h2⟩

lemma startsWith_keyword (key k rest : Str) (hkey : ',' ∉ key) (hk : ',' ∉ k) :
    startsWith (k ++ ',' :: rest) (key ++ [',']) = true ↔ k = key :=
  isPrefixOf_keyword key k rest hkey hk

lemma takeWhile_notComma_append (x rest : Str) (hx : ',' ∉ x) :
    (x ++ ',' :: rest).takeWhile (fun c => !(c == ',')) = x := by
  induction x with
  | nil => simp [List.takeWhile_cons]
  | cons c x ih =>
    have hc : ¬(c = ',') := fun h => hx (h ▸ List.mem_cons_self c x)
    have hx' : ',' ∉ x := fun h => hx (List.mem_cons_of_mem _ h)
    simp only [List.cons_append, List.takeWhile_cons]
    simp [hc, ih hx']

lemma take_length_append (l₁ l₂ : Str) : (l₁ ++ l₂).take l₁.length = l₁ := by
  induction l₁ with
  | nil => simp
  | cons c l ih => simp [List.take_succ_cons, ih]

lemma drop_length_append (l₁ l₂ : Str) : (l₁ ++ l₂).drop l₁.length = l₂ := by
  induction l₁ with
  | nil => simp
  | cons c l ih => simp [ih]

lemma splitAtLastComma_append (pre a : Str) (ha : ',' ∉ a) :
    splitAtLastComma (pre ++ ',' :: a) = some (pre, a) := by
  unfold splitAtLastComma
  have hrev : (pre ++ ',' :: a).reverse = a.reverse ++ ',' :: pre.reverse := by
    simp
  have harev : ',' ∉ a.reverse := fun h => ha (List.mem_reverse.mp h)
  rw [hrev, takeWhile_notComma_append a.reverse pre.reverse harev]
  have hlen : (pre ++ ',' :: a).length = pre.length + 1 + a.length := by
    simp; omega
  have hne : ¬(a.reverse.length = (pre ++ ',' :: a).length) := by
    simp only [List.length_reverse, hlen]; omega
  rw [if_neg hne]
  have htake : (pre ++ ',' :: a).length - a.reverse.length - 1 = pre.length := by
    simp only [List.length_reverse, hlen]; omega
  rw [htake, List.reverse_reverse]
  have hpre : (pre ++ ',' :: a).take pre.length = pre := take_length_append pre (',' :: a)
  rw [hpre]

/-! ### Facts about the token tables, by computation -/

lemma ruleType_token_facts :
    ∀ rt ∈ ruleTypeList, RuleType.ofString rt.value = some rt ∧
      toUpperS rt.value = rt.value ∧ tokOkB rt.value = true := by decide

lemma mem_simpleKindTokens (k : Str) (hk : k ∈ simpleKindTokens) :
    ∃ rt, RuleType.ofString k = some rt ∧ rt.value = k ∧ toUpperS k = k ∧
      tokOkB k = true ∧ k ≠ "AND".data ∧ k ≠ "OR".data ∧ k ≠ "NOT".data ∧
      k ≠ "MATCH".data := by
  unfold simpleKindTokens at hk
  have h1 := List.mem_filter.mp hk
  obtain ⟨hmem, hpred⟩ := h1
  unfold allKindTokens at hmem
  obtain ⟨rt, hrt, hval⟩ := List.mem_map.mp hmem
  obtain ⟨hof, hup, hop⟩ := ruleType_token_facts rt hrt
  refine ⟨rt, hval ▸ hof, hval, hval ▸ hup, hval ▸ hop, ?_, ?_, ?_, ?_⟩ <;>
    · intro he
      rw [he] at hpred
      simp at hpred

lemma mem_allKindTokens (k : Str) (hk : k ∈ allKindTokens) :
    ∃ rt, RuleType.ofString k = some rt ∧ rt.value = k ∧ toUpperS k = k ∧
      tokOkB k = true := by
  unfold allKindTokens at hk
  obtain ⟨rt, hrt, hval⟩ := List.mem_map.mp hk
  obtain ⟨hof, hup, hop⟩ := ruleType_token_facts rt hrt
  exact ⟨rt, hval ▸ hof, hval, hval ▸ hup, hval ▸ hop⟩

lemma tokOk_ne_nil {t : Str} (h : tokOk t) : t ≠ [] := by
  unfold tokOk tokOkB at h
  simp only [Bool.and_eq_true] at h
  intro he
  rw [he] at h
  simp at h

lemma tokOk_chars {t : Str} (h : tokOk t) :
    ∀ c ∈ t, c ≠ ',' ∧ c ≠ '(' ∧ c ≠ ')' ∧ isSpc c = false := by
  unfold tokOk tokOkB at h
  simp only [Bool.and_eq_true, List.all_eq_true] at h
  intro c hc
  have := h.2 c hc
  simp only [Bool.and_eq_true, Bool.not_eq_true', beq_eq_false_iff_ne, ne_eq] at this
  exact ⟨this.1.1.1, this.1.1.2, this.1.2, this.2⟩

lemma tokOk_commafree {t : Str} (h : tokOk t) : ',' ∉ t :=
  fun hc => (tokOk_chars h ',' hc).1 rfl

lemma tokOk_noWs {t : Str} (h : tokOk t) : noWs t :=
  fun c hc => (tokOk_chars h c hc).2.2.2

lemma tokOkB_of_mem_table (k : Str) (hk : k ∈ allKindTokens) : tokOk k := by
  obtain ⟨_, _, _, _, h⟩ := mem_allKindTokens k hk
  exact h

/-! ### Lemmas about the logic-condition decomposer -/

lemma wrapCond_eq (cp : Str × Str) : wrapCond cp = wrapParen (pairStr cp) := by
  simp [wrapCond, wrapParen, pairStr]

lemma decomposeLoop_noparen (g : Str) (hg : ∀ c ∈ g, c ≠ '(' ∧ c ≠ ')') :
    ∀ (tail cur : Str) (acc : List ClashRule),
      decomposeLoop (g ++ tail) 1 cur acc = decomposeLoop tail 1 (cur ++ g) acc := by
  induction g with
  | nil => intro tail cur acc; simp
  | cons c g ih =>
    intro tail cur acc
    have hc := hg c (List.mem_cons_self c g)
    have hg' : ∀ d ∈ g, d ≠ '(' ∧ d ≠ ')' := fun d hd => hg d (List.mem_cons_of_mem _ hd)
    have h1 : decomposeLoop ((c :: g) ++ tail) 1 cur acc
        = decomposeLoop (g ++ tail) 1 (cur ++ [c]) acc := by
      simp [decomposeLoop, if_neg hc.1, if_neg hc.2]
    rw [h1, ih hg' tail (cur ++ [c]) acc]
    simp

lemma decomposeLoop_open (rest : Str) (acc : List ClashRule) :
    decomposeLoop ('(' :: rest) 0 [] acc = decomposeLoop rest 1 [] acc := by
  simp [decomposeLoop]

lemma decomposeLoop_close (rest cur : Str) (acc : List ClashRule) :
    decomposeLoop (')' :: rest) 1 cur acc
      = decomposeLoop rest 0 [] (acc ++ (parseSingleCondition cur).toList) := by
  simp [decomposeLoop]

lemma decomposeLoop_comma (rest : Str) (acc : List ClashRule) :
    decomposeLoop (',' :: rest) 0 [] acc = decomposeLoop rest 0 [] acc := by
  simp [decomposeLoop]

lemma decomposeLoop_groups (gs : List Str)
    (hgs : ∀ g ∈ gs, ∀ c ∈ g, c ≠ '(' ∧ c ≠ ')') :
    ∀ acc, decomposeLoop (intercalateComma (gs.map wrapParen)) 0 [] acc
      = acc ++ gs.filterMap parseSingleCondition := by
  induction gs with
  | nil => intro acc; simp [intercalateComma, decomposeLoop]
  | cons g gs ih =>
    intro acc
    have hg : ∀ c ∈ g, c ≠ '(' ∧ c ≠ ')' := hgs g (List.mem_cons_self g gs)
    have hgs' : ∀ g2 ∈ gs, ∀ c ∈ g2, c ≠ '(' ∧ c ≠ ')' :=
      fun g2 h2 => hgs g2 (List.mem_cons_of_mem _ h2)
    cases gs with
    | nil =>
      have hbody : intercalateComma ([g].map wrapParen) = '(' :: (g ++ [')']) := rfl
      rw [hbody, decomposeLoop_open, decomposeLoop_noparen g hg [')'] [] acc,
        List.nil_append, decomposeLoop_close]
      simp [decomposeLoop, List.filterMap]
      cases parseSingleCondition g <;> simp [Option.toList]
    | cons g2 gs2 =>
      have hbody : intercalateComma ((g :: g2 :: gs2).map wrapParen)
          = '(' :: (g ++ ')' :: ',' :: intercalateComma ((g2 :: gs2).map wrapParen)) := by
        simp [List.map_cons, intercalateComma_cons, wrapParen]
      rw [hbody, decomposeLoop_open]
      have h2 : g ++ ')' :: ',' :: intercalateComma ((g2 :: gs2).map wrapParen)
          = g ++ (')' :: ',' :: intercalateComma ((g2 :: gs2).map wrapParen)) := rfl
      rw [h2, decomposeLoop_noparen g hg _ [] acc, List.nil_append,
        decomposeLoop_close, decomposeLoop_comma,
        ih hgs' (acc ++ (parseSingleCondition g).toList)]
      cases hpg : parseSingleCondition g <;> simp [Option.toList, List.filterMap_cons, hpg]

lemma parseLogicConditions_groups (gs : List Str)
    (hgs : ∀ g ∈ gs, ∀ c ∈ g, c ≠ '(' ∧ c ≠ ')') :
    parseLogicConditions (intercalateComma (gs.map wrapParen))
      = gs.filterMap parseSingleCondition := by
  unfold parseLogicConditions
  rw [decomposeLoop_groups gs hgs []]
  simp

lemma splitOnCommaOnce_append (x rest : Str) (hx : ',' ∉ x) :
    splitOnCommaOnce (x ++ ',' :: rest) = [x, rest] := by
  induction x with
  | nil => simp [splitOnCommaOnce]
  | cons c x ih =>
    have hc : ¬(c = ',') := fun h => hx (h ▸ List.mem_cons_self c x)
    have hx' : ',' ∉ x := fun h => hx (List.mem_cons_of_mem _ h)
    simp only [List.cons_append, splitOnCommaOnce, if_neg hc, List.append_eq, ih hx']

lemma parseSingleCondition_pair (ck cp : Str) (hck : ck ∈ allKindTokens) (hcp : tokOk cp) :
    ∃ crt, RuleType.ofString ck = some crt ∧ crt.value = ck ∧
      parseSingleCondition (pairStr (ck, cp))
        = some ⟨crt, cp, .named [], [], pairStr (ck, cp), 0⟩ := by
  obtain ⟨crt, hof, hval, hup, hok⟩ := mem_allKindTokens ck hck
  refine ⟨crt, hof, hval, ?_⟩
  unfold parseSingleCondition pairStr
  have hckok : tokOk ck := hok
  rw [splitOnCommaOnce_append ck cp (tokOk_commafree hckok)]
  have h1 : trim ck = ck := trim_of_noWs ck (tokOk_noWs hckok)
  have h2 : trim cp = cp := trim_of_noWs cp (tokOk_noWs hcp)
  simp only [List.map_cons, List.map_nil, h1, h2, List.filter]
  have h3 : (!ck.isEmpty) = true := by
    cases hck2 : ck with
    | nil => exact absurd hck2 (tokOk_ne_nil hckok)
    | cons a b => simp [List.isEmpty]
  have h4 : (!cp.isEmpty) = true := by
    cases hcp2 : cp with
    | nil => exact absurd hcp2 (tokOk_ne_nil hcp)
    | cons a b => simp [List.isEmpty]
  rw [h3, h4]
  simp only [hup, hof]

lemma filterMap_eq_map_of_some {α β : Type} (f : α → Option β) (g : α → β)
    (l : List α) (h : ∀ x ∈ l, f x = some (g x)) : l.filterMap f = l.map g := by
  induction l with
  | nil => simp
  | cons x l ih =>
    rw [List.filterMap_cons, h x (List.mem_cons_self x l), List.map_cons,
      ih (fun y hy => h y (List.mem_cons_of_mem _ hy))]

lemma condListStrings_eq (l : List LogicCond) :
    condListStrings l = intercalateComma (l.map (fun c => '(' :: (c.condition_string ++ [')']))) := by
  induction l with
  | nil => rfl
  | cons c l ih =>
    cases l with
    | nil => simp [condListStrings, intercalateComma]
    | cons c2 l2 =>
      simp only [List.map_cons] at ih ⊢
      rw [intercalateComma_cons, ← ih]
      simp [condListStrings]

/-! ### Lemmas about the logic-rule regular expression on structured input -/

lemma startsWith_keyword_false (key k rest : Str) (hkey : ',' ∉ key) (hk : ',' ∉ k)
    (hne : k ≠ key) : startsWith (k ++ ',' :: rest) (key ++ [',']) = false := by
  cases h : startsWith (k ++ ',' :: rest) (key ++ [','])
  · rfl
  · exact absurd ((startsWith_keyword key k rest hkey hk).mp h) hne

lemma logicKind_facts (k : Str) (hk : k ∈ logicKindTokens) :
    ',' ∉ k ∧ noWs k ∧ toUpperS k = k ∧ k ≠ [] := by
  unfold logicKindTokens at hk
  simp only [List.mem_cons, List.not_mem_nil, or_false] at hk
  rcases hk with h | h | h <;> subst h <;>
    exact ⟨by decide, by decide, by decide, by decide⟩

lemma keywordOf_keyword (k rest : Str) (hk : k ∈ logicKindTokens) :
    keywordOf (k ++ ',' :: rest) = some k := by
  have eAnd : ("AND,".data : Str) = "AND".data ++ [','] := rfl
  have eOr : ("OR,".data : Str) = "OR".data ++ [','] := rfl
  have eNot : ("NOT,".data : Str) = "NOT".data ++ [','] := rfl
  unfold logicKindTokens at hk
  simp only [List.mem_cons, List.not_mem_nil, or_false] at hk
  rcases hk with h | h | h <;> subst h <;> unfold keywordOf
  · rw [eAnd, if_pos ((startsWith_keyword _ _ rest (by decide) (by decide)).mpr rfl)]
  · rw [eAnd, eOr]
    rw [startsWith_keyword_false _ _ rest (by decide) (by decide) (by decide)]
    rw [if_neg (by simp), if_pos ((startsWith_keyword _ _ rest (by decide) (by decide)).mpr rfl)]
  · rw [eAnd, eOr, eNot]
    rw [startsWith_keyword_false "AND".data _ rest (by decide) (by decide) (by decide)]
    rw [startsWith_keyword_false "OR".data _ rest (by decide) (by decide) (by decide)]
    rw [if_neg (by simp), if_neg (by simp),
      if_pos ((startsWith_keyword _ _ rest (by decide) (by decide)).mpr rfl)]

lemma contains_eq_false_of_noWs (s : Str) (h : noWs s) : s.contains '\n' = false := by
  cases hcon : s.contains '\n'
  · rfl
  · have hmem : '\n' ∈ s := by
      have := List.mem_of_elem_eq_true hcon
      exact this
    have := h '\n' hmem
    simp [isSpc] at this

lemma logicRegexMatch_structured (k body a : Str) (hk : k ∈ logicKindTokens)
    (hbody : body ≠ []) (hnoWs : noWs body) (hacf : ',' ∉ a) (hane : a ≠ []) :
    logicRegexMatch (k ++ ',' :: '(' :: (body ++ ')' :: ',' :: a)) = some (k, body, a) := by
  have hdrop : (k ++ ',' :: '(' :: (body ++ ')' :: ',' :: a)).drop (k.length + 1)
      = '(' :: (body ++ ')' :: ',' :: a) := by
    have h1 : k ++ ',' :: '(' :: (body ++ ')' :: ',' :: a)
        = (k ++ [',']) ++ '(' :: (body ++ ')' :: ',' :: a) := by simp
    have h2 : (k ++ [',']).length = k.length + 1 := by simp
    rw [h1, ← h2, drop_length_append]
  have hdw : ('(' :: (body ++ ')' :: ',' :: a)).dropWhile isSpc
      = '(' :: (body ++ ')' :: ',' :: a) := by
    rw [List.dropWhile_cons]
    simp [isSpc]
  have hsplit : splitAtLastComma (body ++ ')' :: ',' :: a) = some (body ++ [')'], a) := by
    have h1 : body ++ ')' :: ',' :: a = (body ++ [')']) ++ ',' :: a := by simp
    rw [h1, splitAtLastComma_append _ a hacf]
  have hrev : (body ++ [')']).reverse.dropWhile isSpc = ')' :: body.reverse := by
    rw [List.reverse_append]
    simp [List.dropWhile_cons, isSpc]
  simp only [logicRegexMatch, keywordOf_keyword k _ hk, hdrop, hdw, hsplit,
    if_neg hane, hrev, List.reverse_reverse, if_neg hbody,
    contains_eq_false_of_noWs body hnoWs]
  simp

lemma noWs_intercalateComma (ts : List Str) (h : ∀ t ∈ ts, noWs t) :
    noWs (intercalateComma ts) := by
  induction ts with
  | nil => intro c hc; simp [intercalateComma] at hc
  | cons t ts ih =>
    cases ts with
    | nil => exact h t (List.mem_cons_self t [])
    | cons t2 ts2 =>
      rw [intercalateComma_cons]
      exact noWs_append _ _ (h t (List.mem_cons_self _ _))
        (noWs_cons ',' _ (by decide)
          (ih (fun u hu => h u (List.mem_cons_of_mem _ hu))))

lemma noWs_wrapCond (cp : Str × Str) (h1 : noWs cp.1) (h2 : noWs cp.2) :
    noWs (wrapCond cp) := by
  unfold wrapCond
  refine noWs_cons '(' _ (by decide) ?_
  refine noWs_append _ _ h1 ?_
  refine noWs_cons ',' _ (by decide) ?_
  refine noWs_append _ _ h2 ?_
  intro c hc
  simp only [List.mem_singleton] at hc
  subst hc; decide

lemma body_noWs (conds : List (Str × Str))
    (hconds : ∀ cp ∈ conds, cp.1 ∈ allKindTokens ∧ tokOk cp.2) :
    noWs (intercalateComma (conds.map wrapCond)) := by
  refine noWs_intercalateComma _ ?_
  intro t ht
  obtain ⟨cp, hcp, hcpt⟩ := List.mem_map.mp ht
  obtain ⟨hm, hok⟩ := hconds cp hcp
  subst hcpt
  exact noWs_wrapCond cp (tokOk_noWs (tokOkB_of_mem_table cp.1 hm)) (tokOk_noWs hok)

lemma body_ne_nil (conds : List (Str × Str)) (h : conds ≠ []) :
    intercalateComma (conds.map wrapCond) ≠ [] := by
  cases conds with
  | nil => exact absurd rfl h
  | cons c cs =>
    cases cs with
    | nil => simp [intercalateComma, wrapCond]
    | cons c2 cs2 => simp [List.map_cons, intercalateComma_cons, wrapCond]

lemma parseSingleCondition_condRuleOf (cp : Str × Str)
    (h1 : cp.1 ∈ allKindTokens) (h2 : tokOk cp.2) :
    parseSingleCondition (pairStr cp) = some (condRuleOf cp) := by
  obtain ⟨crt, hof, hval, hparse⟩ := parseSingleCondition_pair cp.1 cp.2 h1 h2
  unfold condRuleOf
  rw [hof]
  simpa using hparse

lemma condRuleOf_condition_string (cp : Str × Str)
    (h1 : cp.1 ∈ allKindTokens) (h2 : tokOk cp.2) :
    (condRuleOf cp).condition_string = pairStr cp := by
  obtain ⟨crt, hof, hval, _⟩ := parseSingleCondition_pair cp.1 cp.2 h1 h2
  unfold condRuleOf ClashRule.condition_string pairStr
  rw [hof]
  simpa using congrArg (· ++ ',' :: cp.2) hval

lemma filterMap_pairStr (conds : List (Str × Str))
    (h : ∀ cp ∈ conds, parseSingleCondition (pairStr cp) = some (condRuleOf cp)) :
    (conds.map pairStr).filterMap parseSingleCondition = conds.map condRuleOf := by
  induction conds with
  | nil => simp
  | cons cp conds ih =>
    rw [List.map_cons, List.filterMap_cons, h cp (List.mem_cons_self cp conds),
      List.map_cons, ih (fun x hx => h x (List.mem_cons_of_mem _ hx))]

lemma logicLine_eq (k : Str) (conds : List (Str × Str)) (a : Str) :
    logicLine k conds a
      = k ++ ',' :: '(' :: (intercalateComma (conds.map wrapCond) ++ ')' :: ',' :: a) := by
  simp [logicLine]

lemma parseLogicRule_wf (k : Str) (conds : List (Str × Str)) (a : Str)
    (hk : k ∈ logicKindTokens) (hne : conds ≠ [])
    (hconds : ∀ cp ∈ conds, cp.1 ∈ allKindTokens ∧ tokOk cp.2) (ha : tokOk a) :
    ∃ lt, RuleType.ofString k = some lt ∧ lt.value = k ∧
      parseLogicRule (logicLine k conds a)
        = .ok ⟨lt, (conds.map condRuleOf).map .simple, resolveAction a,
               logicLine k conds a, 0⟩ := by
  obtain ⟨hkcf, hknoWs, hkup, hkne⟩ := logicKind_facts k hk
  have hlt : ∃ lt, RuleType.ofString k = some lt ∧ lt.value = k := by
    unfold logicKindTokens at hk
    simp only [List.mem_cons, List.not_mem_nil, or_false] at hk
    rcases hk with h | h | h <;> subst h
    · exact ⟨.AND, by decide, by decide⟩
    · exact ⟨.OR, by decide, by decide⟩
    · exact ⟨.NOT, by decide, by decide⟩
  obtain ⟨lt, hof, hval⟩ := hlt
  refine ⟨lt, hof, hval, ?_⟩
  have hbodyNoWs := body_noWs conds hconds
  have hbodyNe := body_ne_nil conds hne
  have hLnoWs : noWs (logicLine k conds a) := by
    rw [logicLine_eq]
    refine noWs_append _ _ hknoWs ?_
    refine noWs_cons ',' _ (by decide) (noWs_cons '(' _ (by decide) ?_)
    refine noWs_append _ _ hbodyNoWs ?_
    exact noWs_cons ')' _ (by decide) (noWs_cons ',' _ (by decide) (tokOk_noWs ha))
  have hmap : conds.map wrapCond = (conds.map pairStr).map wrapParen := by
    rw [List.map_map]
    exact List.map_congr_left (fun cp _ => wrapCond_eq cp)
  have hgroups : parseLogicConditions (intercalateComma (conds.map wrapCond))
      = conds.map condRuleOf := by
    rw [hmap, parseLogicConditions_groups _ ?_]
    · exact filterMap_pairStr conds (fun cp hcp =>
        parseSingleCondition_condRuleOf cp (hconds cp hcp).1 (hconds cp hcp).2)
    · intro g hg c hc
      obtain ⟨cp, hcp, hcpg⟩ := List.mem_map.mp hg
      subst hcpg
      unfold pairStr at hc
      rcases List.mem_append.mp hc with h1 | h1
      · have := tokOk_chars (tokOkB_of_mem_table cp.1 (hconds cp hcp).1) c h1
        exact ⟨this.2.1, this.2.2.1⟩
      · rcases List.mem_cons.mp h1 with h2 | h2
        · subst h2; exact ⟨by decide, by decide⟩
        · have := tokOk_chars (hconds cp hcp).2 c h2
          exact ⟨this.2.1, this.2.2.1⟩
  unfold parseLogicRule
  rw [trim_of_noWs _ hLnoWs, logicLine_eq]
  simp only [logicRegexMatch_structured k _ a hk hbodyNe hbodyNoWs
      (tokOk_commafree ha) (tokOk_ne_nil ha), hkup, hof,
    trim_of_noWs _ hbodyNoWs, trim_of_noWs _ (tokOk_noWs ha), hgroups]

/-! ### Round-trip plumbing -/

lemma andComma_eq : ("AND,".data : Str) = "AND".data ++ [','] := rfl

lemma orComma_eq : ("OR,".data : Str) = "OR".data ++ [','] := rfl

lemma notComma_eq : ("NOT,".data : Str) = "NOT".data ++ [','] := rfl

lemma matchComma_eq : ("MATCH,".data : Str) = "MATCH".data ++ [','] := rfl

lemma canonicalForm_of_noWs (line : Str) (h : noWs line) : canonicalForm line = line := by
  unfold canonicalForm
  have hmap : (splitOnComma line).map trim = splitOnComma line := by
    have hpt : ∀ part ∈ splitOnComma line, trim part = part := fun part hp =>
      trim_of_noWs part (fun c hc => h c (mem_of_mem_splitOnComma line part hp c hc))
    calc (splitOnComma line).map trim = (splitOnComma line).map id :=
          List.map_congr_left hpt
      _ = splitOnComma line := List.map_id _
  rw [hmap, intercalateComma_splitOnComma]

lemma parseRuleLine_trimmed (line : Str) (h1 : trim line = line) (h2 : line ≠ []) :
    parseRuleLine (.str line) = exceptToOption (parseRuleLineCore line) := by
  have hdef : parseRuleLine (.str line)
      = if trim line = [] then none else exceptToOption (parseRuleLineCore (trim line)) := rfl
  rw [hdef, h1, if_neg h2]

lemma parseRuleLineCore_regular (t : Str)
    (h1 : startsWith t "AND,".data = false) (h2 : startsWith t "OR,".data = false)
    (h3 : startsWith t "NOT,".data = false)
    (h4 : startsWith (toUpperS t) "MATCH,".data = false) :
    parseRuleLineCore t = (parseRegularRule t).map Rule.simple := by
  unfold parseRuleLineCore
  rw [h1, h2, h3, h4]
  simp

lemma parseRuleLineCore_logic (t : Str)
    (h : startsWith t "AND,".data = true ∨ startsWith t "OR,".data = true ∨
         startsWith t "NOT,".data = true) :
    parseRuleLineCore t = (parseLogicRule t).map Rule.logic := by
  unfold parseRuleLineCore
  rcases h with h | h | h <;> rw [h] <;> simp

lemma parseRuleLineCore_match (t : Str)
    (h1 : startsWith t "AND,".data = false) (h2 : startsWith t "OR,".data = false)
    (h3 : startsWith t "NOT,".data = false)
    (h4 : startsWith (toUpperS t) "MATCH,".data = true) :
    parseRuleLineCore t = (parseMatchRule t).map Rule.matchR := by
  unfold parseRuleLineCore
  rw [h1, h2, h3, h4]
  simp

lemma partsOf_intercalate (toks : List Str) (h : ∀ t ∈ toks, tokOk t) (hne : toks ≠ []) :
    partsOf (intercalateComma toks) = toks := by
  unfold partsOf
  rw [splitOnComma_intercalate toks (fun t ht => tokOk_commafree (h t ht)) hne]
  have hmap : toks.map trim = toks := by
    calc toks.map trim = toks.map id :=
        List.map_congr_left (fun t ht => trim_of_noWs t (tokOk_noWs (h t ht)))
      _ = toks := List.map_id toks
  rw [hmap]
  apply List.filter_eq_self.mpr
  intro t ht
  have hn := tokOk_ne_nil (h t ht)
  cases t with
  | nil => exact absurd rfl hn
  | cons c cs => simp [List.isEmpty]

lemma toUpperS_keyword_line (k rest : Str) (hup : toUpperS k = k) :
    toUpperS (k ++ ',' :: rest) = k ++ ',' :: toUpperS rest := by
  unfold toUpperS at hup ⊢
  rw [List.map_append, List.map_cons]
  have h1 : Char.toUpper ',' = ',' := rfl
  rw [h1, hup]

lemma simpleLine_cons (k p a : Str) (qs : List Str) :
    simpleLine k p a qs = k ++ ',' :: intercalateComma (p :: a :: qs) := by
  unfold simpleLine
  rw [intercalateComma_cons]

lemma roundtrip_simple (k p a : Str) (qs : List Str)
    (hk : k ∈ simpleKindTokens) (hp : tokOk p) (ha : tokOk a) (hqs : ∀ q ∈ qs, tokOk q)
    (hact : renderActionVal (resolveAction a) = a) :
    (parseRuleLine (.str (simpleLine k p a qs))).map render
      = some (canonicalForm (simpleLine k p a qs)) := by
  obtain ⟨rt, hof, hval, hup, hok, hne1, hne2, hne3, hne4⟩ := mem_simpleKindTokens k hk
  have htoks : ∀ t ∈ k :: p :: a :: qs, tokOk t := by
    intro t ht
    rcases List.mem_cons.mp ht with rfl | ht
    · exact hok
    rcases List.mem_cons.mp ht with rfl | ht
    · exact hp
    rcases List.mem_cons.mp ht with rfl | ht
    · exact ha
    exact hqs t ht
  have hLnoWs : noWs (simpleLine k p a qs) :=
    noWs_intercalateComma _ (fun t ht => tokOk_noWs (htoks t ht))
  have hLne : simpleLine k p a qs ≠ [] := by
    rw [simpleLine_cons]
    simp
  have hd1 : startsWith (simpleLine k p a qs) "AND,".data = false := by
    rw [simpleLine_cons, andComma_eq]
    exact startsWith_keyword_false _ _ _ (by decide) (tokOk_commafree hok) hne1
  have hd2 : startsWith (simpleLine k p a qs) "OR,".data = false := by
    rw [simpleLine_cons, orComma_eq]
    exact startsWith_keyword_false _ _ _ (by decide) (tokOk_commafree hok) hne2
  have hd3 : startsWith (simpleLine k p a qs) "NOT,".data = false := by
    rw [simpleLine_cons, notComma_eq]
    exact startsWith_keyword_false _ _ _ (by decide) (tokOk_commafree hok) hne3
  have hd4 : startsWith (toUpperS (simpleLine k p a qs)) "MATCH,".data = false := by
    rw [simpleLine_cons, toUpperS_keyword_line k _ hup, matchComma_eq]
    exact startsWith_keyword_false _ _ _ (by decide) (tokOk_commafree hok) hne4
  have hparts : partsOf (simpleLine k p a qs) = k :: p :: a :: qs :=
    partsOf_intercalate _ htoks (by simp)
  rw [parseRuleLine_trimmed _ (trim_of_noWs _ hLnoWs) hLne,
    parseRuleLineCore_regular _ hd1 hd2 hd3 hd4]
  simp only [parseRegularRule, hparts, hup, hof, Except.map, exceptToOption,
    Option.map_some']
  rw [canonicalForm_of_noWs _ hLnoWs]
  simp only [render, hval, hact]
  rfl

lemma matchLine_eq (a : Str) : matchLine a = intercalateComma ["MATCH".data, a] := rfl

lemma roundtrip_match (a : Str) (ha : tokOk a)
    (hact : renderActionVal (resolveAction a) = a) :
    (parseRuleLine (.str (matchLine a))).map render
      = some (canonicalForm (matchLine a)) := by
  have htoks : ∀ t ∈ ["MATCH".data, a], tokOk t := by
    intro t ht
    rcases List.mem_cons.mp ht with rfl | ht
    · decide
    rcases List.mem_cons.mp ht with rfl | ht
    · exact ha
    simp at ht
  have hLnoWs : noWs (matchLine a) := by
    rw [matchLine_eq]
    exact noWs_intercalateComma _ (fun t ht => tokOk_noWs (htoks t ht))
  have hLne : matchLine a ≠ [] := by
    unfold matchLine
    simp
  have hM : matchLine a = "MATCH".data ++ ',' :: a := rfl
  have hd1 : startsWith (matchLine a) "AND,".data = false := by
    rw [hM, andComma_eq]
    exact startsWith_keyword_false _ _ _ (by decide) (by decide) (by decide)
  have hd2 : startsWith (matchLine a) "OR,".data = false := by
    rw [hM, orComma_eq]
    exact startsWith_keyword_false _ _ _ (by decide) (by decide) (by decide)
  have hd3 : startsWith (matchLine a) "NOT,".data = false := by
    rw [hM, notComma_eq]
    exact startsWith_keyword_false _ _ _ (by decide) (by decide) (by decide)
  have hd4 : startsWith (toUpperS (matchLine a)) "MATCH,".data = true := by
    rw [hM, toUpperS_keyword_line "MATCH".data _ (by decide), matchComma_eq]
    exact (startsWith_keyword _ _ _ (by decide) (by decide)).mpr rfl
  have hparts : partsOf (matchLine a) = ["MATCH".data, a] :=
    partsOf_intercalate _ htoks (by simp)
  rw [parseRuleLine_trimmed _ (trim_of_noWs _ hLnoWs) hLne,
    parseRuleLineCore_match _ hd1 hd2 hd3 hd4]
  simp only [parseMatchRule, hparts, Except.map, exceptToOption, Option.map_some']
  rw [canonicalForm_of_noWs _ hLnoWs]
  simp only [render, hact]
  rfl

lemma roundtrip_logic (k : Str) (conds : List (Str × Str)) (a : Str)
    (hk : k ∈ logicKindTokens) (hne : conds ≠ [])
    (hconds : ∀ cp ∈ conds, cp.1 ∈ allKindTokens ∧ tokOk cp.2) (ha : tokOk a)
    (hact : renderActionVal (resolveAction a) = a) :
    (parseRuleLine (.str (logicLine k conds a))).map render
      = some (canonicalForm (logicLine k conds a)) := by
  obtain ⟨hkcf, hknoWs, hkup, hkne⟩ := logicKind_facts k hk
  obtain ⟨lt, hof, hval, hparse⟩ := parseLogicRule_wf k conds a hk hne hconds ha
  have hbodyNoWs := body_noWs conds hconds
  have hLnoWs : noWs (logicLine k conds a) := by
    rw [logicLine_eq]
    refine noWs_append _ _ hknoWs ?_
    refine noWs_cons ',' _ (by decide) (noWs_cons '(' _ (by decide) ?_)
    refine noWs_append _ _ hbodyNoWs ?_
    exact noWs_cons ')' _ (by decide) (noWs_cons ',' _ (by decide) (tokOk_noWs ha))
  have hLne : logicLine k conds a ≠ [] := by
    rw [logicLine_eq]
    simp
  have hdisp : startsWith (logicLine k conds a) "AND,".data = true ∨
      startsWith (logicLine k conds a) "OR,".data = true ∨
      startsWith (logicLine k conds a) "NOT,".data = true := by
    have hk2 := hk
    unfold logicKindTokens at hk2
    simp only [List.mem_cons, List.not_mem_nil, or_false] at hk2
    rcases hk2 with h | h | h
    · left
      rw [logicLine_eq, h, andComma_eq]
      exact (startsWith_keyword _ _ _ (by decide) (by decide)).mpr rfl
    · right; left
      rw [logicLine_eq, h, orComma_eq]
      exact (startsWith_keyword _ _ _ (by decide) (by decide)).mpr rfl
    · right; right
      rw [logicLine_eq, h, notComma_eq]
      exact (startsWith_keyword _ _ _ (by decide) (by decide)).mpr rfl
  rw [parseRuleLine_trimmed _ (trim_of_noWs _ hLnoWs) hLne,
    parseRuleLineCore_logic _ hdisp, hparse]
  simp only [Except.map, exceptToOption, Option.map_some']
  rw [canonicalForm_of_noWs _ hLnoWs]
  have hcls : condListStrings ((conds.map condRuleOf).map LogicCond.simple)
      = intercalateComma (conds.map wrapCond) := by
    rw [condListStrings_eq, List.map_map, List.map_map]
    congr 1
    apply List.map_congr_left
    intro cp hcp
    show '(' :: ((LogicCond.simple (condRuleOf cp)).condition_string ++ [')']) = wrapCond cp
    have hcs : (LogicCond.simple (condRuleOf cp)).condition_string
        = (condRuleOf cp).condition_string := by
      simp [LogicCond.condition_string]
    rw [hcs, condRuleOf_condition_string cp (hconds cp hcp).1 (hconds cp hcp).2,
      wrapCond_eq]
    simp [wrapParen]
  simp only [render, LogicRule.condition_string, hcls, hval, hact, logicLine_eq]
  simp

/-! ### Inversion lemmas for logic-rule results -/

lemma parseLogicRule_conditions (t : Str) (l : LogicRule) (h : parseLogicRule t = .ok l) :
    ∃ conds : List ClashRule, l.conditions = conds.map LogicCond.simple := by
  cases hm : logicRegexMatch (trim t) with
  | none => simp [parseLogicRule, hm] at h
  | some g =>
    obtain ⟨kw, body, act⟩ := g
    cases ho : RuleType.ofString (toUpperS kw) with
    | none => simp [parseLogicRule, hm, ho] at h
    | some lt =>
      simp only [parseLogicRule, hm, ho, Except.ok.injEq] at h
      refine ⟨parseLogicConditions (trim body), ?_⟩
      rw [← h]

lemma parseRuleLine_logic_inv (v : LineInput) (l : LogicRule)
    (h : parseRuleLine v = some (.logic l)) :
    ∃ t, parseLogicRule t = .ok l := by
  cases v with
  | nonString => simp [parseRuleLine] at h
  | str line =>
    by_cases hnil : trim line = []
    · simp [parseRuleLine, hnil] at h
    · have hdef : parseRuleLine (.str line)
          = if trim line = [] then none
            else exceptToOption (parseRuleLineCore (trim line)) := rfl
      rw [hdef, if_neg hnil] at h
      unfold parseRuleLineCore at h
      by_cases h1 : (startsWith (trim line) "AND,".data || startsWith (trim line) "OR,".data
          || startsWith (trim line) "NOT,".data) = true
      · rw [if_pos h1] at h
        cases hp : parseLogicRule (trim line) with
        | error e => rw [hp] at h; simp [Except.map, exceptToOption] at h
        | ok l2 =>
          rw [hp] at h
          simp only [Except.map, exceptToOption, Option.some.injEq, Rule.logic.injEq] at h
          exact ⟨trim line, by rw [hp, h]⟩
      · rw [if_neg h1] at h
        by_cases h2 : startsWith (toUpperS (trim line)) "MATCH,".data = true
        · rw [if_pos h2] at h
          cases hp : parseMatchRule (trim line) <;> rw [hp] at h <;>
            simp [Except.map, exceptToOption] at h
        · rw [if_neg h2] at h
          cases hp : parseRegularRule (trim line) <;> rw [hp] at h <;>
            simp [Except.map, exceptToOption] at h

lemma parseRuleDict_logic_inv (dIn : DictInput) (l : LogicRule)
    (h : parseRuleDict dIn = some (.logic l)) :
    ∃ t, parseLogicRule t = .ok l := by
  cases dIn with
  | str s => exact parseRuleLine_logic_inv (.str s) l h
  | other => simp [parseRuleDict] at h
  | dict d =>
    simp only [parseRuleDict] at h
    by_cases h0 : toUpperS d.type = []
    · rw [if_pos h0] at h; simp at h
    rw [if_neg h0] at h
    by_cases h1 : toUpperS d.type = "AND".data ∨ toUpperS d.type = "OR".data ∨
        toUpperS d.type = "NOT".data
    · rw [if_pos h1] at h
      by_cases h2 : dictConditionsStr d = []
      · rw [if_pos h2] at h; simp at h
      · rw [if_neg h2] at h
        cases hp : parseLogicRule (dictLogicRaw d) with
        | error e => rw [hp] at h; simp [Except.map, exceptToOption] at h
        | ok l2 =>
          rw [hp] at h
          simp only [Except.map, exceptToOption, Option.some.injEq, Rule.logic.injEq] at h
          exact ⟨_, by rw [hp, h]⟩
    · rw [if_neg h1] at h
      by_cases h2 : toUpperS d.type = "MATCH".data
      · rw [if_pos h2] at h
        by_cases h3 : d.action = []
        · rw [if_pos h3] at h; simp at h
        · rw [if_neg h3] at h
          cases hp : parseMatchRule ("MATCH,".data ++ d.action) <;> rw [hp] at h <;>
            simp [Except.map, exceptToOption] at h
      · rw [if_neg h2] at h
        by_cases h3 : d.payload = []
        · rw [if_pos h3] at h; simp at h
        · rw [if_neg h3] at h
          cases hp : parseRegularRule (dictRegularRaw d) <;> rw [hp] at h <;>
            simp [Except.map, exceptToOption] at h

/-! ### The claims -/

/-- C1, counterexample: the round-trip law fails as stated. The line
`MATCH,direct` is accepted by the section 6 grammar (the action token is the
named group `direct`), but the parser resolves `direct` case-insensitively to
the built-in Direct action, so rendering gives `MATCH,DIRECT`, which differs
from the whitespace-normalized input by more than whitespace. -/
theorem c1_roundtrip_counterexample :
    WellFormed (matchLine "direct".data) ∧
    (parseRuleLine (.str (matchLine "direct".data))).map render
      ≠ some (canonicalForm (matchLine "direct".data)) := by
  constructor
  · exact WellFormed.matchR "direct".data (by decide)
  · decide

/-- C1, amended: for every well-formed line of the section 6 grammar whose
action token is preserved by action resolution (in particular, built-in
actions written in canonical uppercase; named proxy groups are always
preserved), rendering the parsed rule equals the canonical form of the line. -/
theorem c1_roundtrip_amended (line : Str) (h : WellFormedCanonical line) :
    (parseRuleLine (.str line)).map render = some (canonicalForm line) := by
  cases h with
  | simple k p a qs hk hp ha hqs hact => exact roundtrip_simple k p a qs hk hp ha hqs hact
  | matchR a ha hact => exact roundtrip_match a ha hact
  | logic k conds a hk hne hconds ha hact =>
    exact roundtrip_logic k conds a hk hne hconds ha hact

/-- Witness for the amended C1 at the concrete line `DOMAIN-SUFFIX,google.com,Proxy`. -/
theorem c1_roundtrip_amended_witness :
    (parseRuleLine (.str (simpleLine "DOMAIN-SUFFIX".data "google.com".data
        "Proxy".data []))).map render
      = some (canonicalForm (simpleLine "DOMAIN-SUFFIX".data "google.com".data
        "Proxy".data [])) :=
  c1_roundtrip_amended _
    (WellFormedCanonical.simple _ _ _ _ (by decide) (by decide) (by decide)
      (by intro q hq; simp at hq) (by decide))

/-- C2, counterexample: the Dictionary Adapter does not always agree with
parsing its canonical line. For the dict with type `" and"` (whitespace before
the keyword), payload `p`, action `x`, the adapter takes the regular branch and
returns a SimpleRule with kind AND, while the Line Parser on the same canonical
line ` AND,p,x` strips it, routes it to the Logic path and fails. -/
theorem c2_dict_equiv_counterexample :
    parseRuleDict (.dict ⟨" and".data, "x".data, "p".data, [], []⟩)
        = some (.simple ⟨RuleType.AND, "p".data, .named "x".data, [], " AND,p,x".data, 0⟩) ∧
    parseRuleLine (.str (dictRegularRaw ⟨" and".data, "x".data, "p".data, [], []⟩)) = none ∧
    dictRegularRaw ⟨" and".data, "x".data, "p".data, [], []⟩ = " AND,p,x".data :=
  ⟨rfl, rfl, rfl⟩

/-- C2, amended: for every rule dict whose canonical line is already
whitespace-stripped, `parse_rule_dict` equals `parse_rule_line` on that
canonical line, on all three branches: the regular branch (non-empty
uppercased type not among AND/OR/NOT/MATCH, non-empty payload) additionally
requires that the canonical line is not captured by the line dispatch
prefixes; the logic branch (uppercased type AND/OR/NOT, non-empty accumulated
conditions string) and the match branch (uppercased type MATCH, non-empty
action) need no further proviso. In particular the claim's instance
`type=DOMAIN, payload=x.com, action=DIRECT` equals
`parse_rule_line("DOMAIN,x.com,DIRECT")`. -/
theorem c2_dict_equiv_amended :
    (∀ d : RuleDict,
      toUpperS d.type ≠ [] →
      toUpperS d.type ∉ ["AND".data, "OR".data, "NOT".data, "MATCH".data] →
      d.payload ≠ [] →
      trim (dictRegularRaw d) = dictRegularRaw d →
      startsWith (dictRegularRaw d) "AND,".data = false →
      startsWith (dictRegularRaw d) "OR,".data = false →
      startsWith (dictRegularRaw d) "NOT,".data = false →
      startsWith (toUpperS (dictRegularRaw d)) "MATCH,".data = false →
      parseRuleDict (.dict d) = parseRuleLine (.str (dictRegularRaw d))) ∧
    (∀ d : RuleDict,
      (toUpperS d.type = "AND".data ∨ toUpperS d.type = "OR".data ∨
       toUpperS d.type = "NOT".data) →
      dictConditionsStr d ≠ [] →
      trim (dictLogicRaw d) = dictLogicRaw d →
      parseRuleDict (.dict d) = parseRuleLine (.str (dictLogicRaw d))) ∧
    (∀ d : RuleDict,
      toUpperS d.type = "MATCH".data →
      d.action ≠ [] →
      trim ("MATCH,".data ++ d.action) = "MATCH,".data ++ d.action →
      parseRuleDict (.dict d) = parseRuleLine (.str ("MATCH,".data ++ d.action))) ∧
    parseRuleDict (.dict ⟨"DOMAIN".data, "DIRECT".data, "x.com".data, [], []⟩)
      = parseRuleLine (.str "DOMAIN,x.com,DIRECT".data) := by
  refine ⟨?_, ?_, ?_, rfl⟩
  · intro d h1 h2 h3 h4 h5 h6 h7 h8
    simp only [List.mem_cons, List.not_mem_nil, or_false, not_or] at h2
    obtain ⟨hA, hO, hN, hM⟩ := h2
    have hne : dictRegularRaw d ≠ [] := by
      unfold dictRegularRaw
      simp
    have hd : parseRuleDict (.dict d)
        = exceptToOption ((parseRegularRule (dictRegularRaw d)).map Rule.simple) := by
      simp only [parseRuleDict]
      rw [if_neg h1, if_neg (by simp [hA, hO, hN]), if_neg hM, if_neg h3]
    rw [hd, parseRuleLine_trimmed _ h4 hne, parseRuleLineCore_regular _ h5 h6 h7 h8]
  · intro d hdisj hcne htrim
    have h0 : toUpperS d.type ≠ [] := by
      rcases hdisj with h | h | h <;> rw [h] <;> decide
    have hne : dictLogicRaw d ≠ [] := by
      unfold dictLogicRaw
      simp
    have hd : parseRuleDict (.dict d)
        = exceptToOption ((parseLogicRule (dictLogicRaw d)).map Rule.logic) := by
      simp only [parseRuleDict]
      rw [if_neg h0, if_pos hdisj, if_neg hcne]
    have hraw : dictLogicRaw d
        = toUpperS d.type ++ ',' :: ('(' :: (dictConditionsStr d ++ ')' :: ',' :: d.action)) :=
      rfl
    have hdisp : startsWith (dictLogicRaw d) "AND,".data = true ∨
        startsWith (dictLogicRaw d) "OR,".data = true ∨
        startsWith (dictLogicRaw d) "NOT,".data = true := by
      rcases hdisj with h | h | h
      · left
        rw [hraw, h, andComma_eq]
        exact (startsWith_keyword _ _ _ (by decide) (by decide)).mpr rfl
      · right; left
        rw [hraw, h, orComma_eq]
        exact (startsWith_keyword _ _ _ (by decide) (by decide)).mpr rfl
      · right; right
        rw [hraw, h, notComma_eq]
        exact (startsWith_keyword _ _ _ (by decide) (by decide)).mpr rfl
    rw [hd, parseRuleLine_trimmed _ htrim hne, parseRuleLineCore_logic _ hdisp]
  · intro d hM hact htrim
    have hraw : ("MATCH,".data : Str) ++ d.action = "MATCH".data ++ ',' :: d.action := rfl
    have hne : ("MATCH,".data : Str) ++ d.action ≠ [] := by simp
    have hd : parseRuleDict (.dict d)
        = exceptToOption ((parseMatchRule ("MATCH,".data ++ d.action)).map Rule.matchR) := by
      simp only [parseRuleDict]
      rw [if_neg (by rw [hM]; decide), if_neg (by rw [hM]; decide), if_pos hM, if_neg hact]
    have hd1 : startsWith ("MATCH,".data ++ d.action) "AND,".data = false := by
      rw [hraw, andComma_eq]
      exact startsWith_keyword_false _ _ _ (by decide) (by decide) (by decide)
    have hd2 : startsWith ("MATCH,".data ++ d.action) "OR,".data = false := by
      rw [hraw, orComma_eq]
      exact startsWith_keyword_false _ _ _ (by decide) (by decide) (by decide)
    have hd3 : startsWith ("MATCH,".data ++ d.action) "NOT,".data = false := by
      rw [hraw, notComma_eq]
      exact startsWith_keyword_false _ _ _ (by decide) (by decide) (by decide)
    have hd4 : startsWith (toUpperS ("MATCH,".data ++ d.action)) "MATCH,".data = true := by
      rw [hraw, toUpperS_keyword_line "MATCH".data _ (by decide), matchComma_eq]
      exact (startsWith_keyword _ _ _ (by decide) (by decide)).mpr rfl
    rw [hd, parseRuleLine_trimmed _ htrim hne, parseRuleLineCore_match _ hd1 hd2 hd3 hd4]

/-- Witness for the amended C2, exercising all three branches: a regular dict
(`type="domain"`, `payload="a.b"`, `action="Proxy"`), a logic dict
(`type="or"` with one DOMAIN condition) and a match dict (`type="match"`,
`action="Proxy"`). -/
theorem c2_dict_equiv_amended_witness :
    (parseRuleDict (.dict ⟨"domain".data, "Proxy".data, "a.b".data, [], []⟩)
      = parseRuleLine (.str (dictRegularRaw ⟨"domain".data, "Proxy".data, "a.b".data, [], []⟩))) ∧
    (parseRuleDict (.dict ⟨"or".data, "REJECT".data, [],
        [CondEntry.cdict "DOMAIN".data "x.com".data], []⟩)
      = parseRuleLine (.str (dictLogicRaw ⟨"or".data, "REJECT".data, [],
        [CondEntry.cdict "DOMAIN".data "x.com".data], []⟩))) ∧
    (parseRuleDict (.dict ⟨"match".data, "Proxy".data, [], [], []⟩)
      = parseRuleLine (.str ("MATCH,".data ++ "Proxy".data))) :=
  ⟨c2_dict_equiv_amended.1 _ (by decide) (by decide) (by decide) (by decide)
    (by decide) (by decide) (by decide) (by decide),
   c2_dict_equiv_amended.2.1 _ (Or.inr (Or.inl (by decide))) (by decide) (by decide),
   c2_dict_equiv_amended.2.2.1 _ (by decide) (by decide) (by decide)⟩

/-- C3, counterexample: the Simple path can construct a rule tagged with a
logic kind. The line `and,foo,DIRECT` is not captured by the case-sensitive
`AND,` prefix, so it routes to the Simple path, whose kind lookup uppercases
the token and yields a SimpleRule with kind AND. -/
theorem c3_simple_kind_counterexample :
    parseRuleLine (.str "and,foo,DIRECT".data)
      = some (.simple ⟨RuleType.AND, "foo".data, .builtin .DIRECT, [],
          "and,foo,DIRECT".data, 0⟩) := rfl

/-- C3, amended: what the dispatch does guarantee is that a line whose
stripped form starts with the case-sensitive prefixes `AND,`/`OR,`/`NOT,` or
case-insensitively with `MATCH,` never yields a SimpleRule, and likewise a
rule dict whose uppercased type is AND/OR/NOT/MATCH never yields a SimpleRule;
case or spacing variants of the keywords (e.g. `and,foo,DIRECT`) can still
reach the Simple path and produce SimpleRules tagged AND/OR/NOT/MATCH. -/
theorem c3_simple_kind_amended :
    (∀ s : Str,
      (startsWith (trim s) "AND,".data = true ∨ startsWith (trim s) "OR,".data = true ∨
       startsWith (trim s) "NOT,".data = true ∨
       startsWith (toUpperS (trim s)) "MATCH,".data = true) →
      ∀ c : ClashRule, parseRuleLine (.str s) ≠ some (.simple c)) ∧
    (∀ d : RuleDict,
      toUpperS d.type ∈ ["AND".data, "OR".data, "NOT".data, "MATCH".data] →
      ∀ c : ClashRule, parseRuleDict (.dict d) ≠ some (.simple c)) := by
  constructor
  · intro s hpre c
    by_cases hnil : trim s = []
    · simp [parseRuleLine, hnil]
    · have hdef : parseRuleLine (.str s)
          = if trim s = [] then none
            else exceptToOption (parseRuleLineCore (trim s)) := rfl
      rw [hdef, if_neg hnil]
      unfold parseRuleLineCore
      by_cases h1 : (startsWith (trim s) "AND,".data || startsWith (trim s) "OR,".data
          || startsWith (trim s) "NOT,".data) = true
      · rw [if_pos h1]
        cases parseLogicRule (trim s) <;> simp [Except.map, exceptToOption]
      · rcases hpre with h | h | h | h
        · exact absurd (by simp [h]) h1
        · exact absurd (by simp [h]) h1
        · exact absurd (by simp [h]) h1
        · rw [if_neg h1, if_pos h]
          cases parseMatchRule (trim s) <;> simp [Except.map, exceptToOption]
  · intro d hmem c
    simp only [List.mem_cons, List.not_mem_nil, or_false] at hmem
    simp only [parseRuleDict]
    by_cases h0 : toUpperS d.type = []
    · rw [if_pos h0]; simp
    rw [if_neg h0]
    rcases hmem with h | h | h | h
    · rw [if_pos (Or.inl h)]
      by_cases hc : dictConditionsStr d = []
      · rw [if_pos hc]; simp
      · rw [if_neg hc]
        cases parseLogicRule _ <;> simp [Except.map, exceptToOption]
    · rw [if_pos (Or.inr (Or.inl h))]
      by_cases hc : dictConditionsStr d = []
      · rw [if_pos hc]; simp
      · rw [if_neg hc]
        cases parseLogicRule _ <;> simp [Except.map, exceptToOption]
    · rw [if_pos (Or.inr (Or.inr h))]
      by_cases hc : dictConditionsStr d = []
      · rw [if_pos hc]; simp
      · rw [if_neg hc]
        cases parseLogicRule _ <;> simp [Except.map, exceptToOption]
    · rw [if_neg (by rw [h]; decide), if_pos h]
      by_cases hact : d.action = []
      · rw [if_pos hact]; simp
      · rw [if_neg hact]
        cases parseMatchRule _ <;> simp [Except.map, exceptToOption]

/-- Witness for the amended C3 at the concrete line `AND,x`. -/
theorem c3_simple_kind_amended_witness :
    (startsWith (trim "AND,x".data) "AND,".data = true ∨
     startsWith (trim "AND,x".data) "OR,".data = true ∨
     startsWith (trim "AND,x".data) "NOT,".data = true ∨
     startsWith (toUpperS (trim "AND,x".data)) "MATCH,".data = true) ∧
    parseRuleLine (.str "AND,x".data)
      ≠ some (.simple ⟨RuleType.DOMAIN, [], .named [], [], [], 0⟩) :=
  ⟨Or.inl (by decide),
   c3_simple_kind_amended.1 "AND,x".data (Or.inl (by decide)) _⟩

/-- C4: parsing `AND,((DOMAIN,ad.com),(NETWORK,UDP)),REJECT` yields a
LogicRule with kind AND, exactly the two SimpleRule conditions
(DOMAIN, "ad.com") and (NETWORK, "UDP") in that order, and the built-in
Reject action. -/
theorem c4_logic_example :
    parseRuleLine (.str "AND,((DOMAIN,ad.com),(NETWORK,UDP)),REJECT".data)
      = some (.logic ⟨RuleType.AND,
          [LogicCond.simple ⟨RuleType.DOMAIN, "ad.com".data, .named [], [],
             "DOMAIN,ad.com".data, 0⟩,
           LogicCond.simple ⟨RuleType.NETWORK, "UDP".data, .named [], [],
             "NETWORK,UDP".data, 0⟩],
          .builtin .REJECT, "AND,((DOMAIN,ad.com),(NETWORK,UDP)),REJECT".data, 0⟩) := rfl

/-- C5: a malformed top-level condition group is dropped while the remaining
groups are kept and the logic rule still parses:
`AND,((DOMAIN,a.com),(BAD_KIND,x)),DIRECT` yields exactly one condition.
In general, over any list of parenthesis-free groups the decomposer returns
exactly the successfully parsed groups, in order (`filterMap`). -/
theorem c5_malformed_condition_dropped :
    parseRuleLine (.str "AND,((DOMAIN,a.com),(BAD_KIND,x)),DIRECT".data)
        = some (.logic ⟨RuleType.AND,
            [LogicCond.simple ⟨RuleType.DOMAIN, "a.com".data, .named [], [],
               "DOMAIN,a.com".data, 0⟩],
            .builtin .DIRECT, "AND,((DOMAIN,a.com),(BAD_KIND,x)),DIRECT".data, 0⟩) ∧
    (∀ gs : List Str, (∀ g ∈ gs, ∀ c ∈ g, c ≠ '(' ∧ c ≠ ')') →
        parseLogicConditions (intercalateComma (gs.map wrapParen))
          = gs.filterMap parseSingleCondition) :=
  ⟨rfl, parseLogicConditions_groups⟩

/-- Witness for C5's general part at the concrete groups
`DOMAIN,a.com` and `BAD_KIND,x`. -/
theorem c5_malformed_condition_dropped_witness :
    parseLogicConditions
        (intercalateComma (["DOMAIN,a.com".data, "BAD_KIND,x".data].map wrapParen))
      = ["DOMAIN,a.com".data, "BAD_KIND,x".data].filterMap parseSingleCondition :=
  c5_malformed_condition_dropped.2 _ (by decide)

/-- C6: every LogicRule produced by `parse_rule_line` or `parse_rule_dict` has
only leaf SimpleRule conditions - the decomposer never produces a nested
LogicRule, even though the `conditions` type permits nesting. -/
theorem c6_conditions_simple :
    (∀ (v : LineInput) (l : LogicRule), parseRuleLine v = some (.logic l) →
      ∀ c ∈ l.conditions, ∃ cr, c = LogicCond.simple cr) ∧
    (∀ (dIn : DictInput) (l : LogicRule), parseRuleDict dIn = some (.logic l) →
      ∀ c ∈ l.conditions, ∃ cr, c = LogicCond.simple cr) := by
  constructor
  · intro v l h c hc
    obtain ⟨t, ht⟩ := parseRuleLine_logic_inv v l h
    obtain ⟨conds, hcnd⟩ := parseLogicRule_conditions t l ht
    rw [hcnd] at hc
    obtain ⟨cr, _, hcr⟩ := List.mem_map.mp hc
    exact ⟨cr, hcr.symm⟩
  · intro dIn l h c hc
    obtain ⟨t, ht⟩ := parseRuleDict_logic_inv dIn l h
    obtain ⟨conds, hcnd⟩ := parseLogicRule_conditions t l ht
    rw [hcnd] at hc
    obtain ⟨cr, _, hcr⟩ := List.mem_map.mp hc
    exact ⟨cr, hcr.symm⟩

/-- Witness for C6 at the concrete line `NOT,((DOMAIN,x)),PASS`. -/
theorem c6_conditions_simple_witness :
    ∃ cr, LogicCond.simple ⟨RuleType.DOMAIN, "x".data, .named [], [], "DOMAIN,x".data, 0⟩
        = LogicCond.simple cr :=
  c6_conditions_simple.1 (.str "NOT,((DOMAIN,x)),PASS".data)
    ⟨RuleType.NOT,
     [LogicCond.simple ⟨RuleType.DOMAIN, "x".data, .named [], [], "DOMAIN,x".data, 0⟩],
     .builtin .PASS, "NOT,((DOMAIN,x)),PASS".data, 0⟩ rfl
    (LogicCond.simple ⟨RuleType.DOMAIN, "x".data, .named [], [], "DOMAIN,x".data, 0⟩)
    (by simp)

/-- C7: on the Simple path, a kind token that does not resolve via the
RuleType table fails with the unknown-rule-kind error carrying the
(uppercased) token; in particular `FOO,bar,DIRECT` fails with
`UnknownRuleKind("FOO")` and `parse_rule_line` produces no Rule value. -/
theorem c7_unknown_kind :
    (∀ (line rt p a : Str) (rest : List Str), partsOf line = rt :: p :: a :: rest →
        RuleType.ofString (toUpperS rt) = none →
        parseRegularRule line = .error (.unknownRuleType (toUpperS rt) line)) ∧
    parseRuleLineCore "FOO,bar,DIRECT".data
      = .error (.unknownRuleType "FOO".data "FOO,bar,DIRECT".data) ∧
    parseRuleLine (.str "FOO,bar,DIRECT".data) = none := by
  refine ⟨?_, rfl, rfl⟩
  intro line rt p a rest hparts hof
  simp only [parseRegularRule, hparts, hof]

/-- Witness for C7's general part at the concrete line `FOO,bar,DIRECT`. -/
theorem c7_unknown_kind_witness :
    parseRegularRule "FOO,bar,DIRECT".data
      = .error (.unknownRuleType "FOO".data "FOO,bar,DIRECT".data) :=
  c7_unknown_kind.1 "FOO,bar,DIRECT".data "FOO".data "bar".data "DIRECT".data [] rfl rfl

/-- C8: the Match path requires exactly 2 non-empty comma-separated fields and
fails with the invalid-match-format error otherwise; `MATCH,DIRECT,EXTRA`
fails while `MATCH,DIRECT` yields a MatchRule with the built-in Direct
action. -/
theorem c8_match_format :
    (∀ line : Str, (partsOf line).length ≠ 2 →
        parseMatchRule line = .error (.invalidMatchFormat line)) ∧
    parseRuleLineCore "MATCH,DIRECT,EXTRA".data
      = .error (.invalidMatchFormat "MATCH,DIRECT,EXTRA".data) ∧
    parseRuleLine (.str "MATCH,DIRECT,EXTRA".data) = none ∧
    parseRuleLine (.str "MATCH,DIRECT".data)
      = some (.matchR ⟨.builtin .DIRECT, "MATCH,DIRECT".data, 0, RuleType.MATCH⟩) := by
  refine ⟨?_, rfl, rfl, rfl⟩
  intro line hlen
  unfold parseMatchRule
  cases hp : partsOf line with
  | nil => rfl
  | cons x xs =>
    cases xs with
    | nil => rfl
    | cons y ys =>
      cases ys with
      | nil => exact absurd (by rw [hp]; rfl) hlen
      | cons z zs => rfl

/-- Witness for C8's general part at the 1-field line `MATCH`. -/
theorem c8_match_format_witness :
    parseMatchRule "MATCH".data = .error (.invalidMatchFormat "MATCH".data) :=
  c8_match_format.1 "MATCH".data (by decide)

/-- C9: the parsers are total over the modelled inputs (strings, non-strings,
dicts, non-dicts): mapping `parse_rule_line` over a batch yields one result
per line in input order, every caught dispatch error becomes `None` rather
than propagating, and `parse_rule_dict` always returns either `None` or a
Rule value. -/
theorem c9_totality :
    (∀ lines : List LineInput, (lines.map parseRuleLine).length = lines.length) ∧
    (∀ (lines : List LineInput) (i : Nat),
        (lines.map parseRuleLine).get? i = (lines.get? i).map parseRuleLine) ∧
    (∀ (s : Str) (e : ParseError), parseRuleLineCore (trim s) = .error e →
        parseRuleLine (.str s) = none) ∧
    (∀ dIn : DictInput, parseRuleDict dIn = none ∨ ∃ r, parseRuleDict dIn = some r) := by
  refine ⟨fun lines => by simp, fun lines i => by simp, ?_, ?_⟩
  · intro s e he
    have hdef : parseRuleLine (.str s)
        = if trim s = [] then none
          else exceptToOption (parseRuleLineCore (trim s)) := rfl
    rw [hdef]
    by_cases hnil : trim s = []
    · rw [if_pos hnil]
    · rw [if_neg hnil, he]
      rfl
  · intro dIn
    cases h : parseRuleDict dIn with
    | none => exact Or.inl rfl
    | some r => exact Or.inr ⟨r, rfl⟩

/-- Witness for C9's error-absorption part at the short line `FOO,x`. -/
theorem c9_totality_witness :
    parseRuleLine (.str "FOO,x".data) = none :=
  c9_totality.2.2.1 "FOO,x".data (.invalidRuleFormat "FOO,x".data) rfl

/-- C10: in all three parse paths the action token is resolved
case-insensitively against the built-in set: an action whose uppercase form is
one of DIRECT/REJECT/REJECT-DROP/PASS/COMPATIBLE becomes the corresponding
built-in Action, any other action string is preserved verbatim as a named
proxy group, and the Match, Simple and Logic paths all store exactly
`resolveAction` of their extracted action token. -/
theorem c10_action_resolution :
    (∀ s : Str, toUpperS s = "DIRECT".data → resolveAction s = .builtin .DIRECT) ∧
    (∀ s : Str, toUpperS s = "REJECT".data → resolveAction s = .builtin .REJECT) ∧
    (∀ s : Str, toUpperS s = "REJECT-DROP".data → resolveAction s = .builtin .REJECT_DROP) ∧
    (∀ s : Str, toUpperS s = "PASS".data → resolveAction s = .builtin .PASS) ∧
    (∀ s : Str, toUpperS s = "COMPATIBLE".data → resolveAction s = .builtin .COMPATIBLE) ∧
    (∀ s : Str, Action.ofString (toUpperS s) = none → resolveAction s = .named s) ∧
    (∀ line p a : Str, partsOf line = [p, a] →
        parseMatchRule line = .ok ⟨resolveAction a, line, 0, RuleType.MATCH⟩) ∧
    (∀ (line rt p a : Str) (rest : List Str) (rty : RuleType),
        partsOf line = rt :: p :: a :: rest →
        RuleType.ofString (toUpperS rt) = some rty →
        parseRegularRule line = .ok ⟨rty, p, resolveAction a, rest, line, 0⟩) ∧
    (∀ (line kw body act : Str) (lt : RuleType),
        logicRegexMatch (trim line) = some (kw, body, act) →
        RuleType.ofString (toUpperS kw) = some lt →
        parseLogicRule line
          = .ok ⟨lt, (parseLogicConditions (trim body)).map .simple,
                 resolveAction (trim act), line, 0⟩) := by
  refine ⟨?_, ?_, ?_, ?_, ?_, ?_, ?_, ?_, ?_⟩
  · intro s h; unfold resolveAction; rw [h]; rfl
  · intro s h; unfold resolveAction; rw [h]; rfl
  · intro s h; unfold resolveAction; rw [h]; rfl
  · intro s h; unfold resolveAction; rw [h]; rfl
  · intro s h; unfold resolveAction; rw [h]; rfl
  · intro s h; unfold resolveAction; rw [h]
  · intro line p a hp
    simp only [parseMatchRule, hp]
  · intro line rt p a rest rty hp ho
    simp only [parseRegularRule, hp, ho]
  · intro line kw body act lt hm ho
    simp only [parseLogicRule, hm, ho]

/-- Witness for C10 at concrete action tokens `direct` (built-in resolved
case-insensitively) and `MyGroup` (preserved verbatim), and at the match line
`MATCH,direct`. -/
theorem c10_action_resolution_witness :
    resolveAction "direct".data = .builtin .DIRECT ∧
    resolveAction "MyGroup".data = .named "MyGroup".data ∧
    parseMatchRule "MATCH,direct".data
      = .ok ⟨resolveAction "direct".data, "MATCH,direct".data, 0, RuleType.MATCH⟩ :=
  ⟨c10_action_resolution.1 "direct".data rfl,
   c10_action_resolution.2.2.2.2.2.1 "MyGroup".data rfl,
   c10_action_resolution.2.2.2.2.2.2.1 "MATCH,direct".data "MATCH".data "direct".data rfl⟩

end ClashSpec
